import Mathlib

/-!
Verification development for the NeoGPT server.

The definitions below are a shallow embedding of the parts of the source
that the stated properties are about:

* `NeoGPT.Memory`   — the memory table operations: the memory_save branch of
  handleBuiltinTool (src/services/tools.js), the POST /api/memory route and
  the auto-memory insertion of the chat route.
* `NeoGPT.Chats`    — the message-edit route (PATCH /:id/messages/:msgId).
* `NeoGPT.Settings` — the settings routes and maskSettings.
* `NeoGPT.MCP`      — the remote tool gateway: validateMcpUrl, mcpRequest,
  collectMCPTools, and the unified tool-executor routing of the chat route.
* `NeoGPT.AI`       — the provider adapter streamOpenAI with its bounded
  tool-call round loop, and the chat-route callbacks wired onto it.

Database tables are modeled as lists of rows in insertion order; network
requests and responses are modeled as explicit inputs and traces.
-/

set_option maxHeartbeats 1000000
set_option maxRecDepth 20000

namespace NeoGPT

/-- ASCII-only lowercasing. This is the behaviour of the SQLite lower()
function used by the dedup query of memory_save, and of the case folding
relevant to the ASCII patterns of the PRIVATE_IP_RE regular expression. -/
def asciiLowerChar (c : Char) : Char :=
  if 'A' ≤ c ∧ c ≤ 'Z' then Char.ofNat (c.toNat + 32) else c

/-- ASCII-only lowercase of a string, defined over the character list so that
it evaluates by kernel reduction. -/
def asciiLower (s : String) : String := ⟨s.data.map asciiLowerChar⟩

/-- JavaScript String.prototype.trim, modeled over the character list:
strips leading and trailing whitespace. -/
def jsTrim (s : String) : String :=
  ⟨List.reverse (List.dropWhile Char.isWhitespace
    (List.reverse (List.dropWhile Char.isWhitespace s.data)))⟩

/-- JavaScript String.prototype.length, modeled as the character count. -/
def jsLength (s : String) : Nat := s.data.length

/-- JavaScript String.prototype.slice(0, n), modeled over the character list. -/
def jsTake (s : String) (n : Nat) : String := ⟨s.data.take n⟩

/-- JavaScript String.prototype.startsWith, modeled over the character lists. -/
def jsStartsWith (s p : String) : Bool := s.data.take p.data.length == p.data

/-- JavaScript String.prototype.slice(n), modeled over the character list. -/
def jsDrop (s : String) (n : Nat) : String := ⟨s.data.drop n⟩

namespace Memory

/-- Row of the memory table (src/db/database.js): owning user and free-text
content. Identity and timestamps are left implicit in the list position. -/
structure MemRow where
  userId : Nat
  content : String
deriving DecidableEq, Repr

/-- The memory_save branch of handleBuiltinTool (src/services/tools.js,
lines 110-118): trims the fact, rejects empty input, skips the insert when a
row with case-insensitively equal content already exists for the user
(the SELECT with lower(content) = lower(?)), otherwise inserts the trimmed
fact. Returns the result string and the updated table. -/
def memorySave (userId : Nat) (factArg : String) (st : List MemRow) :
    String × List MemRow :=
  let fact := jsTrim factArg
  if fact = "" then ("Error: No fact provided.", st)
  else if st.any (fun r => r.userId == userId && asciiLower r.content == asciiLower fact) then
    ("✓ Already remembered: \"" ++ fact ++ "\"", st)
  else
    ("✓ Saved to memory: \"" ++ fact ++ "\"", st ++ [{ userId := userId, content := fact }])

/-- Result of the POST /api/memory route. -/
inductive PostMemoryResult where
  | badRequest (message : String)
  | created (row : MemRow)
deriving DecidableEq, Repr

/-- POST /api/memory (src/unnamed/part_006, lines 14-28): rejects blank
content, content over 1000 characters, and inserts past the 500-per-user
cap; otherwise inserts the trimmed content with a plain INSERT (note: no
duplicate check on this route). -/
def postMemory (userId : Nat) (content : String) (st : List MemRow) :
    PostMemoryResult × List MemRow :=
  if jsTrim content = "" then (.badRequest "Content required", st)
  else if jsLength content > 1000 then
    (.badRequest "Memory fact too long (max 1000 chars)", st)
  else
    let count := (st.filter (fun r => r.userId == userId)).length
    if 500 ≤ count then
      (.badRequest "Memory limit reached (500 facts max). Delete some facts first.", st)
    else
      let row : MemRow := { userId := userId, content := jsTrim content }
      (.created row, st ++ [row])

/-- Auto-memory insertion from the onDone callback of POST /api/ai/chat
(src/unnamed/part_006, lines 352-360): every fact returned by
extractMemories is inserted with a plain INSERT statement; there is no
duplicate check and no count check on this path. -/
def autoMemoryInsert (userId : Nat) (facts : List String) (st : List MemRow) :
    List MemRow :=
  facts.foldl (fun acc f => acc ++ [{ userId := userId, content := f }]) st

end Memory

end NeoGPT

namespace NeoGPT.Memory

theorem memorySave_inserts_of_no_dupe (u : Nat) (f : String) (st : List MemRow)
    (h1 : jsTrim f ≠ "")
    (h2 : st.any (fun r => r.userId == u && asciiLower r.content == asciiLower (jsTrim f)) = false) :
    (memorySave u f st).2 = st ++ [{ userId := u, content := jsTrim f }] := by
  unfold memorySave
  simp [h1, h2]

theorem memorySave_skips_of_dupe (u : Nat) (f : String) (st : List MemRow)
    (h1 : jsTrim f ≠ "")
    (h2 : st.any (fun r => r.userId == u && asciiLower r.content == asciiLower (jsTrim f)) = true) :
    (memorySave u f st).2 = st := by
  unfold memorySave
  simp [h1, h2]

/-- Claim C5 counterexample: with the fact "Lives in Berlin" already stored for
user 1, the background auto-memory path inserts the case-insensitively equal
fact "lives in berlin" as a second row, while the memory_save dedup path would
leave the table unchanged — so auto-memory extraction does not go through the
same dedup-on-insert path as the manual memory_save tool. -/
theorem c5_counterexample :
    autoMemoryInsert 1 ["lives in berlin"] [{ userId := 1, content := "Lives in Berlin" }] =
      [{ userId := 1, content := "Lives in Berlin" }, { userId := 1, content := "lives in berlin" }] ∧
    (memorySave 1 "lives in berlin" [{ userId := 1, content := "Lives in Berlin" }]).2 =
      [{ userId := 1, content := "Lives in Berlin" }] := by
  constructor
  · rfl
  · decide

/-- Claim C5 (amended): each fact yielded by background auto-memory extraction
is inserted with a plain INSERT and no dedup check — the resulting table is the
old table with one appended row per yielded fact, regardless of whether a
case-insensitively equal fact already exists for the user. -/
theorem c5_auto_memory_plain_insert (u : Nat) (facts : List String) (st : List MemRow) :
    autoMemoryInsert u facts st =
      st ++ facts.map (fun f => { userId := u, content := f }) := by
  induction facts generalizing st with
  | nil => simp [autoMemoryInsert]
  | cons f rest ih =>
    simp only [autoMemoryInsert, List.foldl_cons] at *
    rw [ih]
    simp

end NeoGPT.Memory

namespace NeoGPT.Memory

/-- Claim C6 counterexample: with user 1 already holding 500 stored facts, the
memory_save tool path still inserts a fresh fact, bringing the per-user count
to 501 — the 500-fact cap is not enforced on this insertion operation, so the
per-user count can exceed the cap. -/
theorem c6_counterexample :
    (((memorySave 1 "fact-b" (List.replicate 500 { userId := 1, content := "fact-a" })).2).filter
        (fun r => r.userId == 1)).length = 501 := by
  decide

/-- Claim C6 (amended): only the POST /api/memory route rejects inserts once a
user holds 500 facts; the memory_save tool performs no cap check, so a
non-duplicate save at the cap still inserts and pushes the per-user count past
500; the auto-memory path likewise inserts with no cap check. -/
theorem c6_cap_only_on_route (u : Nat) (c f : String) (st : List MemRow)
    (hcount : 500 ≤ (st.filter (fun r => r.userId == u)).length)
    (hc : jsTrim c ≠ "")
    (hlen : ¬ jsLength c > 1000)
    (hf : jsTrim f ≠ "")
    (hnodupe : st.any (fun r => r.userId == u && asciiLower r.content == asciiLower (jsTrim f)) = false) :
    postMemory u c st =
      (.badRequest "Memory limit reached (500 facts max). Delete some facts first.", st) ∧
    ((memorySave u f st).2.filter (fun r => r.userId == u)).length =
      (st.filter (fun r => r.userId == u)).length + 1 := by
  constructor
  · unfold postMemory
    simp [hc, hlen, hcount]
  · rw [memorySave_inserts_of_no_dupe u f st hf hnodupe]
    rw [List.filter_append]
    simp

theorem c6_witness :
    postMemory 1 "extra" (List.replicate 500 { userId := 1, content := "fact-a" }) =
      (.badRequest "Memory limit reached (500 facts max). Delete some facts first.",
        List.replicate 500 { userId := 1, content := "fact-a" }) ∧
    ((memorySave 1 "fact-b" (List.replicate 500 { userId := 1, content := "fact-a" })).2.filter
        (fun r => r.userId == 1)).length =
      ((List.replicate 500 ({ userId := 1, content := "fact-a" } : MemRow)).filter
        (fun r => r.userId == 1)).length + 1 :=
  c6_cap_only_on_route 1 "extra" "fact-b" _ (by decide) (by decide) (by decide) (by decide)
    (by decide)

/-- Claim C7 counterexample: inserting the fact "Lives in Berlin" twice through
the POST /api/memory route leaves two stored rows with that exact content for
the user — this route performs no duplicate check, so the two-inserts-one-row
property does not hold for all valid fact insertions. -/
theorem c7_counterexample :
    ((postMemory 1 "Lives in Berlin" (postMemory 1 "Lives in Berlin" []).2).2.filter
        (fun r => r.userId == 1 && asciiLower r.content == asciiLower "Lives in Berlin")).length
      = 2 := by
  decide

/-- Claim C7 (amended): the two-inserts-one-row dedup property holds for the
memory_save tool path — saving a fact and then saving any case-insensitively
equal fact leaves exactly one matching row — but not for the POST /api/memory
route, which inserts without a duplicate check (see the counterexample). -/
theorem c7_memory_save_dedups (u : Nat) (f g : String) (st : List MemRow)
    (hf : jsTrim f ≠ "") (hg : jsTrim g ≠ "")
    (heq : asciiLower (jsTrim g) = asciiLower (jsTrim f))
    (hnew : st.any (fun r => r.userId == u && asciiLower r.content == asciiLower (jsTrim f)) = false) :
    ((memorySave u g (memorySave u f st).2).2.filter
        (fun r => r.userId == u && asciiLower r.content == asciiLower (jsTrim f))).length = 1 := by
  rw [memorySave_inserts_of_no_dupe u f st hf hnew]
  have hdupe : (st ++ [({ userId := u, content := jsTrim f } : MemRow)]).any
      (fun r => r.userId == u && asciiLower r.content == asciiLower (jsTrim g)) = true := by
    rw [List.any_append]
    simp [heq]
  rw [memorySave_skips_of_dupe u g _ hg hdupe]
  rw [List.filter_append]
  have hnil : st.filter (fun r => r.userId == u && asciiLower r.content == asciiLower (jsTrim f))
      = [] := by
    rw [List.filter_eq_nil_iff]
    intro a ha
    have := List.any_eq_false.mp hnew a ha
    simpa using this
  rw [hnil]
  simp

theorem c7_witness :
    ((memorySave 1 "LIVES IN BERLIN" (memorySave 1 "Lives in Berlin" []).2).2.filter
        (fun r => r.userId == 1 &&
          asciiLower r.content == asciiLower (jsTrim "Lives in Berlin"))).length = 1 :=
  c7_memory_save_dedups 1 "Lives in Berlin" "LIVES IN BERLIN" [] (by decide) (by decide)
    (by decide) (by decide)

end NeoGPT.Memory

namespace NeoGPT.Chats

/-- Row of the messages table (src/db/database.js): AUTOINCREMENT id,
owning conversation, role, content, created_at (unixepoch seconds). -/
structure Message where
  id : Nat
  conversationId : Nat
  role : String
  content : String
  createdAt : Nat
deriving DecidableEq, Repr

/-- Creation order of messages as the spec defines it: by creation time,
with ties broken by insertion order (the AUTOINCREMENT id). -/
def createdBefore (a b : Message) : Prop :=
  a.createdAt < b.createdAt ∨ (a.createdAt = b.createdAt ∧ a.id < b.id)

/-- Result of the message-edit route. -/
inductive EditResult where
  | notFound (message : String)
  | badRequest (message : String)
  | ok (deletedFrom : Nat)
deriving DecidableEq, Repr

/-- PATCH /:id/messages/:msgId (src/unnamed/part_004, lines 88-108), after the
conversation-ownership check: looks the message up by id within the
conversation, requires a user-role message and non-blank content, then runs
DELETE FROM messages WHERE conversation_id = ? AND created_at >= ? with the
edited message's created_at, returning the deletedFrom timestamp. -/
def editMessage (convId msgId : Nat) (content : String) (msgs : List Message) :
    EditResult × List Message :=
  match msgs.find? (fun m => m.id == msgId && m.conversationId == convId) with
  | none => (.notFound "Message not found", msgs)
  | some msg =>
    if msg.role ≠ "user" then (.badRequest "Only user messages can be edited", msgs)
    else if jsTrim content = "" then (.badRequest "Content required", msgs)
    else (.ok msg.createdAt,
      msgs.filter (fun m => !(m.conversationId == convId && msg.createdAt ≤ m.createdAt)))

/-- Claim C8 counterexample: two user messages of conversation 1 share the
created_at timestamp 100, with message 1 inserted before message 2 (smaller
AUTOINCREMENT id), so message 1 is created earlier than message 2 in creation
order; yet editing message 2 deletes message 1 as well, because the route
deletes every row with created_at greater than or equal to the edited
message's timestamp. -/
theorem c8_counterexample :
    createdBefore
      { id := 1, conversationId := 1, role := "user", content := "first", createdAt := 100 }
      { id := 2, conversationId := 1, role := "user", content := "second", createdAt := 100 } ∧
    (editMessage 1 2 "edited"
      [{ id := 1, conversationId := 1, role := "user", content := "first", createdAt := 100 },
       { id := 2, conversationId := 1, role := "user", content := "second", createdAt := 100 }]).2
      = [] := by
  exact ⟨Or.inr ⟨rfl, by decide⟩, by decide⟩

/-- Claim C8 (amended): a successful edit deletes exactly the messages of the
same conversation whose created_at is greater than or equal to the edited
message's created_at — this includes messages inserted earlier that share the
edited message's timestamp — and retains, in their original order, exactly the
messages of other conversations and the messages of this conversation with a
strictly earlier timestamp. -/
theorem c8_edit_deletes_from_timestamp (convId msgId : Nat) (content : String)
    (msgs : List Message) (msg : Message)
    (hfind : msgs.find? (fun m => m.id == msgId && m.conversationId == convId) = some msg)
    (hrole : msg.role = "user") (hcontent : jsTrim content ≠ "") :
    (editMessage convId msgId content msgs).1 = .ok msg.createdAt ∧
    (editMessage convId msgId content msgs).2.Sublist msgs ∧
    ∀ m, m ∈ (editMessage convId msgId content msgs).2 ↔
      (m ∈ msgs ∧ ¬(m.conversationId = convId ∧ msg.createdAt ≤ m.createdAt)) := by
  unfold editMessage
  rw [hfind]
  dsimp only
  rw [if_neg (by simp [hrole]), if_neg (by simp [hcontent])]
  refine ⟨rfl, List.filter_sublist _, ?_⟩
  intro m
  rw [List.mem_filter]
  simp
  tauto

theorem c8_witness :
    (editMessage 1 3 "edited"
      [{ id := 1, conversationId := 1, role := "user", content := "a", createdAt := 50 },
       { id := 2, conversationId := 2, role := "user", content := "b", createdAt := 100 },
       { id := 3, conversationId := 1, role := "user", content := "c", createdAt := 100 },
       { id := 4, conversationId := 1, role := "assistant", content := "d", createdAt := 120 }]).1
      = .ok 100 ∧
    (editMessage 1 3 "edited"
      [{ id := 1, conversationId := 1, role := "user", content := "a", createdAt := 50 },
       { id := 2, conversationId := 2, role := "user", content := "b", createdAt := 100 },
       { id := 3, conversationId := 1, role := "user", content := "c", createdAt := 100 },
       { id := 4, conversationId := 1, role := "assistant", content := "d", createdAt := 120 }]).2.Sublist
      [{ id := 1, conversationId := 1, role := "user", content := "a", createdAt := 50 },
       { id := 2, conversationId := 2, role := "user", content := "b", createdAt := 100 },
       { id := 3, conversationId := 1, role := "user", content := "c", createdAt := 100 },
       { id := 4, conversationId := 1, role := "assistant", content := "d", createdAt := 120 }] ∧
    ∀ m, m ∈ (editMessage 1 3 "edited"
      [{ id := 1, conversationId := 1, role := "user", content := "a", createdAt := 50 },
       { id := 2, conversationId := 2, role := "user", content := "b", createdAt := 100 },
       { id := 3, conversationId := 1, role := "user", content := "c", createdAt := 100 },
       { id := 4, conversationId := 1, role := "assistant", content := "d", createdAt := 120 }]).2 ↔
      (m ∈ [{ id := 1, conversationId := 1, role := "user", content := "a", createdAt := 50 },
       { id := 2, conversationId := 2, role := "user", content := "b", createdAt := 100 },
       { id := 3, conversationId := 1, role := "user", content := "c", createdAt := 100 },
       { id := 4, conversationId := 1, role := "assistant", content := "d", createdAt := 120 }] ∧
        ¬(m.conversationId = 1 ∧ 100 ≤ m.createdAt)) :=
  c8_edit_deletes_from_timestamp 1 3 "edited" _
    { id := 3, conversationId := 1, role := "user", content := "c", createdAt := 100 }
    (by decide) rfl (by decide)

end NeoGPT.Chats

namespace NeoGPT.Settings

/-- Stored per-user settings (src/db/database.js settings table), one optional
value per allowed key; a missing key is simply absent from the table. -/
structure StoredSettings where
  model : Option String := none
  provider : Option String := none
  custom_instructions : Option String := none
  memory_enabled : Option String := none
  temperature : Option String := none
  system_prompt : Option String := none
  stream_enabled : Option String := none
  openai_api_key : Option String := none
  auto_memory : Option String := none
  tavily_api_key : Option String := none
  chat_mode : Option String := none
deriving DecidableEq, Repr

/-- Result of spreading DEFAULTS under the stored settings
(src/unnamed/part_005: the merged object passed to maskSettings). The two
API-key fields have no default and stay absent when unset. -/
structure MergedSettings where
  model : String
  provider : String
  custom_instructions : String
  memory_enabled : String
  temperature : String
  system_prompt : String
  stream_enabled : String
  auto_memory : String
  chat_mode : String
  openai_api_key : Option String
  tavily_api_key : Option String
deriving DecidableEq, Repr

/-- The DEFAULTS spread of the settings routes. -/
def mergeDefaults (s : StoredSettings) : MergedSettings :=
  { model := s.model.getD "gpt-5-mini",
    provider := s.provider.getD "openai",
    custom_instructions := s.custom_instructions.getD "",
    memory_enabled := s.memory_enabled.getD "1",
    temperature := s.temperature.getD "0.7",
    system_prompt := s.system_prompt.getD "You are a helpful, harmless, and honest AI assistant.",
    stream_enabled := s.stream_enabled.getD "1",
    auto_memory := s.auto_memory.getD "1",
    chat_mode := s.chat_mode.getD "normal",
    openai_api_key := s.openai_api_key,
    tavily_api_key := s.tavily_api_key }

/-- Response shape of GET and PATCH /api/settings after maskSettings: the raw
key fields are deleted and replaced by the two is-set booleans. -/
structure MaskedSettings where
  model : String
  provider : String
  custom_instructions : String
  memory_enabled : String
  temperature : String
  system_prompt : String
  stream_enabled : String
  auto_memory : String
  chat_mode : String
  openai_api_key_set : Bool
  tavily_api_key_set : Bool
deriving DecidableEq, Repr

/-- Truthiness of merged.key && merged.key.trim() in maskSettings. -/
def keyIsSet (v : Option String) : Bool :=
  match v with
  | none => false
  | some s => !(jsTrim s == "")

/-- maskSettings (src/unnamed/part_005, lines 36-43): computes the two is-set
flags, deletes the raw key fields and returns the rest with the flags. -/
def maskSettings (m : MergedSettings) : MaskedSettings :=
  { model := m.model,
    provider := m.provider,
    custom_instructions := m.custom_instructions,
    memory_enabled := m.memory_enabled,
    temperature := m.temperature,
    system_prompt := m.system_prompt,
    stream_enabled := m.stream_enabled,
    auto_memory := m.auto_memory,
    chat_mode := m.chat_mode,
    openai_api_key_set := keyIsSet m.openai_api_key,
    tavily_api_key_set := keyIsSet m.tavily_api_key }

/-- GET /api/settings: mask of the stored settings merged over the defaults. -/
def getSettingsResponse (s : StoredSettings) : MaskedSettings :=
  maskSettings (mergeDefaults s)

/-- ALLOWED_KEYS of PATCH /api/settings. -/
def ALLOWED_KEYS : List String :=
  ["model", "provider", "custom_instructions", "memory_enabled", "temperature",
   "system_prompt", "stream_enabled", "openai_api_key", "auto_memory",
   "tavily_api_key", "chat_mode"]

/-- MAX_LENGTHS of PATCH /api/settings. -/
def MAX_LENGTHS (k : String) : Option Nat :=
  if k = "custom_instructions" then some 4000
  else if k = "system_prompt" then some 4000
  else if k = "model" then some 64
  else if k = "provider" then some 64
  else if k = "chat_mode" then some 32
  else none

/-- setSetting (src/db/database.js): upsert of one stored key. -/
def setSetting (s : StoredSettings) (k v : String) : StoredSettings :=
  if k = "model" then { s with model := some v }
  else if k = "provider" then { s with provider := some v }
  else if k = "custom_instructions" then { s with custom_instructions := some v }
  else if k = "memory_enabled" then { s with memory_enabled := some v }
  else if k = "temperature" then { s with temperature := some v }
  else if k = "system_prompt" then { s with system_prompt := some v }
  else if k = "stream_enabled" then { s with stream_enabled := some v }
  else if k = "openai_api_key" then { s with openai_api_key := some v }
  else if k = "auto_memory" then { s with auto_memory := some v }
  else if k = "tavily_api_key" then { s with tavily_api_key := some v }
  else if k = "chat_mode" then { s with chat_mode := some v }
  else s

/-- One iteration of the PATCH /api/settings update loop: keys outside
ALLOWED_KEYS are skipped, over-long values for length-capped keys are
silently skipped, everything else is upserted. -/
def applyUpdate (s : StoredSettings) (kv : String × String) : StoredSettings :=
  if !(ALLOWED_KEYS.contains kv.1) then s
  else
    match MAX_LENGTHS kv.1 with
    | some maxLen => if jsLength kv.2 > maxLen then s else setSetting s kv.1 kv.2
    | none => setSetting s kv.1 kv.2

/-- The PATCH /api/settings body loop over Object.entries(updates). -/
def applyUpdates (s : StoredSettings) (updates : List (String × String)) : StoredSettings :=
  updates.foldl applyUpdate s

/-- PATCH /api/settings response: the stored settings after the update loop,
merged over the defaults and masked. -/
def patchSettingsResponse (s : StoredSettings) (updates : List (String × String)) :
    MaskedSettings :=
  maskSettings (mergeDefaults (applyUpdates s updates))

/-- Equality away from the secret fields plus equal is-set flags: the
information maskSettings may depend on. -/
def sameButSecrets (a b : StoredSettings) : Prop :=
  a.model = b.model ∧ a.provider = b.provider ∧
  a.custom_instructions = b.custom_instructions ∧
  a.memory_enabled = b.memory_enabled ∧ a.temperature = b.temperature ∧
  a.system_prompt = b.system_prompt ∧ a.stream_enabled = b.stream_enabled ∧
  a.auto_memory = b.auto_memory ∧ a.chat_mode = b.chat_mode ∧
  keyIsSet a.openai_api_key = keyIsSet b.openai_api_key ∧
  keyIsSet a.tavily_api_key = keyIsSet b.tavily_api_key

theorem maskSettings_eq_of_sameButSecrets (a b : StoredSettings)
    (h : sameButSecrets a b) :
    maskSettings (mergeDefaults a) = maskSettings (mergeDefaults b) := by
  obtain ⟨h1, h2, h3, h4, h5, h6, h7, h8, h9, h10, h11⟩ := h
  simp only [maskSettings, mergeDefaults, h1, h2, h3, h4, h5, h6, h7, h8, h9, h10, h11]

theorem setSetting_sameButSecrets (a b : StoredSettings) (k v : String)
    (h : sameButSecrets a b) :
    sameButSecrets (setSetting a k v) (setSetting b k v) := by
  obtain ⟨h1, h2, h3, h4, h5, h6, h7, h8, h9, h10, h11⟩ := h
  by_cases hk1 : k = "model"
  · subst hk1
    simp only [setSetting, if_pos rfl]
    exact ⟨rfl, h2, h3, h4, h5, h6, h7, h8, h9, h10, h11⟩
  ·
    by_cases hk2 : k = "provider"
    · subst hk2
      simp only [setSetting, if_neg hk1, if_pos rfl]
      exact ⟨h1, rfl, h3, h4, h5, h6, h7, h8, h9, h10, h11⟩
    ·
      by_cases hk3 : k = "custom_instructions"
      · subst hk3
        simp only [setSetting, if_neg hk1, if_neg hk2, if_pos rfl]
        exact ⟨h1, h2, rfl, h4, h5, h6, h7, h8, h9, h10, h11⟩
      ·
        by_cases hk4 : k = "memory_enabled"
        · subst hk4
          simp only [setSetting, if_neg hk1, if_neg hk2, if_neg hk3, if_pos rfl]
          exact ⟨h1, h2, h3, rfl, h5, h6, h7, h8, h9, h10, h11⟩
        ·
          by_cases hk5 : k = "temperature"
          · subst hk5
            simp only [setSetting, if_neg hk1, if_neg hk2, if_neg hk3, if_neg hk4, if_pos rfl]
            exact ⟨h1, h2, h3, h4, rfl, h6, h7, h8, h9, h10, h11⟩
          ·
            by_cases hk6 : k = "system_prompt"
            · subst hk6
              simp only [setSetting, if_neg hk1, if_neg hk2, if_neg hk3, if_neg hk4, if_neg hk5, if_pos rfl]
              exact ⟨h1, h2, h3, h4, h5, rfl, h7, h8, h9, h10, h11⟩
            ·
              by_cases hk7 : k = "stream_enabled"
              · subst hk7
                simp only [setSetting, if_neg hk1, if_neg hk2, if_neg hk3, if_neg hk4, if_neg hk5, if_neg hk6, if_pos rfl]
                exact ⟨h1, h2, h3, h4, h5, h6, rfl, h8, h9, h10, h11⟩
              ·
                by_cases hk8 : k = "openai_api_key"
                · subst hk8
                  simp only [setSetting, if_neg hk1, if_neg hk2, if_neg hk3, if_neg hk4, if_neg hk5, if_neg hk6, if_neg hk7, if_pos rfl]
                  exact ⟨h1, h2, h3, h4, h5, h6, h7, h8, h9, rfl, h11⟩
                ·
                  by_cases hk9 : k = "auto_memory"
                  · subst hk9
                    simp only [setSetting, if_neg hk1, if_neg hk2, if_neg hk3, if_neg hk4, if_neg hk5, if_neg hk6, if_neg hk7, if_neg hk8, if_pos rfl]
                    exact ⟨h1, h2, h3, h4, h5, h6, h7, rfl, h9, h10, h11⟩
                  ·
                    by_cases hk10 : k = "tavily_api_key"
                    · subst hk10
                      simp only [setSetting, if_neg hk1, if_neg hk2, if_neg hk3, if_neg hk4, if_neg hk5, if_neg hk6, if_neg hk7, if_neg hk8, if_neg hk9, if_pos rfl]
                      exact ⟨h1, h2, h3, h4, h5, h6, h7, h8, h9, h10, rfl⟩
                    ·
                      by_cases hk11 : k = "chat_mode"
                      · subst hk11
                        simp only [setSetting, if_neg hk1, if_neg hk2, if_neg hk3, if_neg hk4, if_neg hk5, if_neg hk6, if_neg hk7, if_neg hk8, if_neg hk9, if_neg hk10, if_pos rfl]
                        exact ⟨h1, h2, h3, h4, h5, h6, h7, h8, rfl, h10, h11⟩
                      ·
                        simp only [setSetting, if_neg hk1, if_neg hk2, if_neg hk3, if_neg hk4, if_neg hk5, if_neg hk6, if_neg hk7, if_neg hk8, if_neg hk9, if_neg hk10, if_neg hk11]
                        exact ⟨h1, h2, h3, h4, h5, h6, h7, h8, h9, h10, h11⟩

theorem applyUpdate_sameButSecrets (a b : StoredSettings) (kv : String × String)
    (h : sameButSecrets a b) :
    sameButSecrets (applyUpdate a kv) (applyUpdate b kv) := by
  unfold applyUpdate
  split
  · exact h
  · split
    · split
      · exact h
      · exact setSetting_sameButSecrets a b kv.1 kv.2 h
    · exact setSetting_sameButSecrets a b kv.1 kv.2 h

theorem applyUpdates_sameButSecrets (updates : List (String × String)) :
    ∀ (a b : StoredSettings), sameButSecrets a b →
      sameButSecrets (applyUpdates a updates) (applyUpdates b updates) := by
  induction updates with
  | nil => intro a b h; exact h
  | cons kv rest ih =>
    intro a b h
    exact ih _ _ (applyUpdate_sameButSecrets a b kv h)

/-- Claim C9: the settings responses never carry the raw key values — the
response record carries only the two booleans openai_api_key_set and
tavily_api_key_set in their place — and the GET and PATCH responses are
identical for any two stored non-blank key values: the response depends only
on whether each key is set. -/
theorem c9_secrets_masked (s : StoredSettings) (a1 t1 a2 t2 : String)
    (u : List (String × String))
    (ha1 : jsTrim a1 ≠ "") (ha2 : jsTrim a2 ≠ "")
    (ht1 : jsTrim t1 ≠ "") (ht2 : jsTrim t2 ≠ "") :
    getSettingsResponse { s with openai_api_key := some a1, tavily_api_key := some t1 } =
      getSettingsResponse { s with openai_api_key := some a2, tavily_api_key := some t2 } ∧
    patchSettingsResponse { s with openai_api_key := some a1, tavily_api_key := some t1 } u =
      patchSettingsResponse { s with openai_api_key := some a2, tavily_api_key := some t2 } u := by
  have hsame : sameButSecrets
      { s with openai_api_key := some a1, tavily_api_key := some t1 }
      { s with openai_api_key := some a2, tavily_api_key := some t2 } := by
    refine ⟨rfl, rfl, rfl, rfl, rfl, rfl, rfl, rfl, rfl, ?_, ?_⟩
    · simp [keyIsSet, ha1, ha2]
    · simp [keyIsSet, ht1, ht2]
  constructor
  · exact maskSettings_eq_of_sameButSecrets _ _ hsame
  · exact maskSettings_eq_of_sameButSecrets _ _ (applyUpdates_sameButSecrets u _ _ hsame)

theorem c9_witness :
    getSettingsResponse { openai_api_key := some "sk-alpha", tavily_api_key := some "tv-alpha" } =
      getSettingsResponse { openai_api_key := some "sk-beta", tavily_api_key := some "tv-beta" } ∧
    patchSettingsResponse { openai_api_key := some "sk-alpha", tavily_api_key := some "tv-alpha" }
        [("model", "gpt-5")] =
      patchSettingsResponse { openai_api_key := some "sk-beta", tavily_api_key := some "tv-beta" }
        [("model", "gpt-5")] :=
  c9_secrets_masked {} "sk-alpha" "sk-beta" "tv-alpha" "tv-beta" [("model", "gpt-5")]
    (by decide) (by decide) (by decide) (by decide)

end NeoGPT.Settings

namespace NeoGPT.MCP

/-- Tool description returned by a remote server from tools/list
(src/services/mcp.js via src/services/tools.js part 2). The inputSchema is
passed through opaquely and omitted here. -/
structure MCPTool where
  name : String
  description : String
deriving DecidableEq, Repr

/-- OpenAI-format tool produced by mcpToolsToOpenAI, with the internal
_mcpServer metadata; built-in tools would carry none. -/
structure OpenAITool where
  name : String
  description : String
  mcpServer : Option String
deriving DecidableEq, Repr

/-- mcpToolsToOpenAI (src/services/tools.js part 2, lines 374-384). -/
def mcpToolsToOpenAI (ts : List MCPTool) (serverUrl : String) : List OpenAITool :=
  ts.map (fun t => { name := t.name, description := t.description, mcpServer := some serverUrl })

/-- The accumulator of collectMCPTools: the merged catalog and the
name-to-server routing table (the auth payload kept alongside the url in the
source is omitted; routing is by url). -/
structure Routing where
  openaiTools : List OpenAITool
  toolServerMap : List (String × String)
deriving DecidableEq, Repr

/-- Merge of one discovered server into the accumulator: the inner loop of
collectMCPTools (src/services/tools.js part 2, lines 393-398) — a tool is
added only when its name is not yet in the routing table (first server wins
on a name collision). -/
def mergeServerTools (acc : Routing) (url : String) (ts : List MCPTool) : Routing :=
  ts.foldl (fun acc t =>
    if (acc.toolServerMap.lookup t.name).isSome then acc
    else { openaiTools := acc.openaiTools ++ mcpToolsToOpenAI [t] url,
           toolServerMap := acc.toolServerMap ++ [(t.name, url)] }) acc

/-- collectMCPTools (src/services/tools.js part 2, lines 386-402): servers are
given together with the tool list their listTools call returned (a failed
discovery contributes the empty list). The source runs the discoveries
concurrently and merges each server's tools at its completion; the merge is
modeled here in server enumeration order. -/
def collectMCPTools (servers : List (String × List MCPTool)) : Routing :=
  servers.foldl (fun acc srv => mergeServerTools acc srv.1 srv.2)
    { openaiTools := [], toolServerMap := [] }

/-- Names of the BUILTIN_TOOLS schemas (src/services/tools.js, lines 7-94). -/
def builtinToolNames : List String :=
  ["memory_save", "memory_get", "web_search", "generate_image"]

/-- Dispatch target chosen by the unified toolExecutor. -/
inductive ToolRoute where
  | builtin
  | mcp (serverUrl : String)
  | notFound
deriving DecidableEq, Repr

/-- Routing decision of the unified toolExecutor of POST /api/ai/chat
(src/unnamed/part_006, lines 198-219): built-in tool names take priority,
otherwise the name is looked up in the discovery routing table and dispatched
to that server via callTool, and an unresolved name degrades to a
tool-not-found result. -/
def toolExecutorRoute (map : List (String × String)) (name : String) : ToolRoute :=
  if builtinToolNames.contains name then .builtin
  else
    match map.lookup name with
    | some url => .mcp url
    | none => .notFound

theorem lookup_append_aux (l1 l2 : List (String × String)) (k : String) :
    (l1 ++ l2).lookup k =
      match l1.lookup k with
      | some v => some v
      | none => l2.lookup k := by
  induction l1 with
  | nil => simp
  | cons p rest ih =>
    by_cases hk : k == p.1
    · simp [List.lookup, hk]
    · simp [List.lookup, hk, ih]

theorem mergeServer_step (acc : Routing) (url : String) (t : MCPTool) (rest : List MCPTool) :
    mergeServerTools acc url (t :: rest) =
      mergeServerTools
        (if (acc.toolServerMap.lookup t.name).isSome then acc
         else { openaiTools := acc.openaiTools ++ mcpToolsToOpenAI [t] url,
                toolServerMap := acc.toolServerMap ++ [(t.name, url)] }) url rest := rfl

theorem mergeServer_preserves (url : String) (ts : List MCPTool) (n : String) :
    ∀ acc : Routing, (acc.toolServerMap.lookup n).isSome = true →
      (mergeServerTools acc url ts).toolServerMap.lookup n = acc.toolServerMap.lookup n ∧
      (mergeServerTools acc url ts).openaiTools.filter (fun t => t.name == n) =
        acc.openaiTools.filter (fun t => t.name == n) := by
  induction ts with
  | nil => intro acc _; exact ⟨rfl, rfl⟩
  | cons t rest ih =>
    intro acc hsome
    rw [mergeServer_step]
    by_cases hmem : (acc.toolServerMap.lookup t.name).isSome = true
    · rw [if_pos hmem]
      exact ih acc hsome
    · rw [if_neg hmem]
      have hne : ¬(t.name == n) = true := by
        intro hb
        rw [show t.name = n from by simpa using hb] at hmem
        exact hmem hsome
      obtain ⟨v, hv⟩ := Option.isSome_iff_exists.mp hsome
      have hlooke : ((acc.toolServerMap ++ [(t.name, url)]).lookup n) =
          acc.toolServerMap.lookup n := by
        rw [lookup_append_aux, hv]
      have h2 := ih { openaiTools := acc.openaiTools ++ mcpToolsToOpenAI [t] url,
                      toolServerMap := acc.toolServerMap ++ [(t.name, url)] }
        (by simpa [hlooke] using hsome)
      refine ⟨?_, ?_⟩
      · rw [h2.1]
        exact hlooke
      · rw [h2.2]
        simp [mcpToolsToOpenAI, List.filter_append, hne]

theorem mergeServer_registers (url : String) (ts : List MCPTool) (n : String) :
    ∀ acc : Routing, acc.toolServerMap.lookup n = none →
      n ∈ ts.map (fun t => t.name) →
      (mergeServerTools acc url ts).toolServerMap.lookup n = some url ∧
      ∃ d, (mergeServerTools acc url ts).openaiTools.filter (fun t => t.name == n) =
        acc.openaiTools.filter (fun t => t.name == n) ++
          [{ name := n, description := d, mcpServer := some url }] := by
  induction ts with
  | nil => intro acc _ hmem; simp at hmem
  | cons t rest ih =>
    intro acc hnone hmem
    rw [mergeServer_step]
    by_cases heq : t.name = n
    · subst heq
      have hnotsome : ¬(acc.toolServerMap.lookup t.name).isSome = true := by
        rw [hnone]; simp
      rw [if_neg hnotsome]
      have hlookt : ((acc.toolServerMap ++ [(t.name, url)]).lookup t.name) = some url := by
        rw [lookup_append_aux, hnone]
        simp [List.lookup]
      have hpres := mergeServer_preserves url rest t.name
        { openaiTools := acc.openaiTools ++ mcpToolsToOpenAI [t] url,
          toolServerMap := acc.toolServerMap ++ [(t.name, url)] }
        (by rw [hlookt]; simp)
      refine ⟨?_, ⟨t.description, ?_⟩⟩
      · rw [hpres.1, hlookt]
      · rw [hpres.2]
        simp [mcpToolsToOpenAI, List.filter_append]
    · have hmem2 : n ∈ rest.map (fun t => t.name) := by
        simp only [List.map_cons, List.mem_cons] at hmem
        rcases hmem with h | h
        · exact absurd h.symm heq
        · exact h
      have hne : ¬(t.name == n) = true := by simpa using heq
      by_cases hsome : (acc.toolServerMap.lookup t.name).isSome = true
      · rw [if_pos hsome]
        exact ih acc hnone hmem2
      · rw [if_neg hsome]
        have hnone2 : ((acc.toolServerMap ++ [(t.name, url)]).lookup n) = none := by
          rw [lookup_append_aux, hnone]
          simp [List.lookup,
            show ¬(n == t.name) = true from by simpa using fun hh => heq hh.symm]
        have h2 := ih { openaiTools := acc.openaiTools ++ mcpToolsToOpenAI [t] url,
                        toolServerMap := acc.toolServerMap ++ [(t.name, url)] } hnone2 hmem2
        obtain ⟨hl, d, hf⟩ := h2
        refine ⟨hl, ⟨d, ?_⟩⟩
        rw [hf]
        simp [mcpToolsToOpenAI, List.filter_append, hne]

/-- Claim C2: when two enabled remote servers both expose a (non-built-in)
tool of the same name, the discovery merge keeps the entry of the
first-enumerated server — the routing table maps the name to the first
server's url, the merged catalog holds exactly one entry under that name and
it carries the first server's url — and the unified tool executor routes
every invocation of that name to the first server, never the second. -/
theorem c2_first_server_wins (url1 url2 : String) (ts1 ts2 : List MCPTool) (n : String)
    (hb : builtinToolNames.contains n = false)
    (h1 : n ∈ ts1.map (fun t => t.name))
    (h2 : n ∈ ts2.map (fun t => t.name)) :
    (collectMCPTools [(url1, ts1), (url2, ts2)]).toolServerMap.lookup n = some url1 ∧
    ((collectMCPTools [(url1, ts1), (url2, ts2)]).openaiTools.filter
        (fun t => t.name == n)).map (fun t => t.mcpServer) = [some url1] ∧
    toolExecutorRoute (collectMCPTools [(url1, ts1), (url2, ts2)]).toolServerMap n =
      .mcp url1 := by
  have hcoll : collectMCPTools [(url1, ts1), (url2, ts2)] =
      mergeServerTools (mergeServerTools { openaiTools := [], toolServerMap := [] } url1 ts1)
        url2 ts2 := rfl
  have hreg := mergeServer_registers url1 ts1 n { openaiTools := [], toolServerMap := [] }
    (by simp [List.lookup]) h1
  obtain ⟨hl1, d, hf1⟩ := hreg
  have hpres := mergeServer_preserves url2 ts2 n
    (mergeServerTools { openaiTools := [], toolServerMap := [] } url1 ts1)
    (by rw [hl1]; simp)
  have hlook : (collectMCPTools [(url1, ts1), (url2, ts2)]).toolServerMap.lookup n
      = some url1 := by
    rw [hcoll, hpres.1, hl1]
  refine ⟨hlook, ?_, ?_⟩
  · rw [hcoll, hpres.2, hf1]
    simp
  · unfold toolExecutorRoute
    rw [if_neg (by rw [hb]; simp), hlook]

theorem c2_witness :
    (collectMCPTools [("https://alpha.example.com/mcp", [{ name := "search", description := "alpha search" }]),
        ("https://beta.example.com/mcp", [{ name := "search", description := "beta search" }])]).toolServerMap.lookup
      "search" = some "https://alpha.example.com/mcp" ∧
    ((collectMCPTools [("https://alpha.example.com/mcp", [{ name := "search", description := "alpha search" }]),
        ("https://beta.example.com/mcp", [{ name := "search", description := "beta search" }])]).openaiTools.filter
      (fun t => t.name == "search")).map (fun t => t.mcpServer) = [some "https://alpha.example.com/mcp"] ∧
    toolExecutorRoute
      (collectMCPTools [("https://alpha.example.com/mcp", [{ name := "search", description := "alpha search" }]),
        ("https://beta.example.com/mcp", [{ name := "search", description := "beta search" }])]).toolServerMap
      "search" = .mcp "https://alpha.example.com/mcp" :=
  c2_first_server_wins "https://alpha.example.com/mcp" "https://beta.example.com/mcp"
    [{ name := "search", description := "alpha search" }]
    [{ name := "search", description := "beta search" }] "search"
    (by decide) (by decide) (by decide)

/-- Parsed URL as produced by the platform URL parser: the protocol
(including the trailing colon, e.g. "http:") and the hostname. A url that
does not parse is represented by none at the use sites. -/
structure ParsedUrl where
  protocol : String
  hostname : String
deriving DecidableEq, Repr

/-- The 172.16.0.0/12 alternative of PRIVATE_IP_RE:
172\.(1[6-9]|2\d|3[01])\. as a prefix match. -/
def is172Private (h : String) : Bool :=
  jsStartsWith h "172." &&
    (["16.", "17.", "18.", "19.", "20.", "21.", "22.", "23.", "24.", "25.",
      "26.", "27.", "28.", "29.", "30.", "31."].any
      (fun p => jsStartsWith (jsDrop h 4) p))

/-- The PRIVATE_IP_RE test (src/services/mcp.js, line 243): an anchored,
case-insensitive match of the loopback, RFC1918, link-local and IPv6
unique-local/loopback prefixes against the hostname. -/
def privateIpTest (host : String) : Bool :=
  let h := asciiLower host
  jsStartsWith h "127." || jsStartsWith h "10." || is172Private h ||
  jsStartsWith h "192.168." || jsStartsWith h "169.254." ||
  jsStartsWith h "::1" || jsStartsWith h "fc" || jsStartsWith h "fd" ||
  jsStartsWith h "fe80"

/-- validateMcpUrl (src/services/mcp.js, lines 245-255): parse failure, a
non-http(s) protocol, a PRIVATE_IP_RE hostname match, or the literal
hostname localhost each abort with a descriptive error. -/
def validateMcpUrl (parsed : Option ParsedUrl) : Except String Unit :=
  match parsed with
  | none => .error "Invalid MCP server URL"
  | some p =>
    if p.protocol != "http:" && p.protocol != "https:" then
      .error "MCP server URL must use http or https"
    else if privateIpTest p.hostname || p.hostname == "localhost" then
      .error "MCP server URL must not point to a private or loopback address"
    else .ok ()

/-- Network side effects of the gateway: the POST issued by fetch. -/
inductive NetOp where
  | post (url : String)
deriving DecidableEq, Repr

/-- mcpRequest (src/services/mcp.js, lines 260-307): validateMcpUrl runs
first and its error aborts the call before the fetch; otherwise the POST is
issued and the transport and JSON-RPC response handling (plain JSON or SSE),
abstracted here into netResult, produces the outcome. The second component
is the trace of network operations performed. -/
def mcpRequest (parsed : Option ParsedUrl) (serverUrl : String)
    (netResult : Except String String) : Except String String × List NetOp :=
  match validateMcpUrl parsed with
  | .error e => (.error e, [])
  | .ok _ => (netResult, [.post serverUrl])

/-- Hostname classes named by the spec sentence for claim C4, as lexical
patterns on the hostname: loopback (127.), RFC1918 private (10., 172.16-31.,
192.168.), link-local (169.254.), the IPv6 unique-local and loopback
prefixes (fc, fd, ::1) with link-local (fe80), case-insensitively, and the
literal string localhost. -/
def specBlockedHost (host : String) : Bool :=
  let h := asciiLower host
  jsStartsWith h "127." ||
  (jsStartsWith h "10." || is172Private h || jsStartsWith h "192.168.") ||
  jsStartsWith h "169.254." ||
  (jsStartsWith h "fc" || jsStartsWith h "fd" || jsStartsWith h "::1" ||
   jsStartsWith h "fe80") ||
  host == "localhost"

theorem specBlocked_imp (host : String) (h : specBlockedHost host = true) :
    (privateIpTest host || host == "localhost") = true := by
  unfold specBlockedHost at h
  unfold privateIpTest
  simp only [Bool.or_eq_true] at h ⊢
  tauto

/-- Claim C4: for every remote-tool request whose URL does not parse as an
absolute http/https URL, or whose hostname lexically matches a loopback,
RFC1918 private, link-local, or IPv6 unique-local/loopback pattern, or is
the literal string localhost, mcpRequest returns a descriptive error and the
network trace is empty — the request is rejected before any network I/O. -/
theorem c4_ssrf_guard (parsed : Option ParsedUrl) (url : String)
    (netResult : Except String String)
    (h : parsed = none ∨ ∃ p, parsed = some p ∧
      ((p.protocol != "http:" && p.protocol != "https:") = true ∨
        specBlockedHost p.hostname = true)) :
    (∃ e, (mcpRequest parsed url netResult).1 = .error e) ∧
    (mcpRequest parsed url netResult).2 = [] := by
  rcases h with h | ⟨p, hp, hbad⟩
  · subst h
    exact ⟨⟨"Invalid MCP server URL", rfl⟩, rfl⟩
  · subst hp
    rcases hbad with hproto | hhost
    · unfold mcpRequest validateMcpUrl
      dsimp only
      rw [if_pos hproto]
      exact ⟨⟨"MCP server URL must use http or https", rfl⟩, rfl⟩
    · unfold mcpRequest validateMcpUrl
      dsimp only
      by_cases hproto : (p.protocol != "http:" && p.protocol != "https:") = true
      · rw [if_pos hproto]
        exact ⟨⟨"MCP server URL must use http or https", rfl⟩, rfl⟩
      · rw [if_neg hproto, if_pos (specBlocked_imp p.hostname hhost)]
        exact ⟨⟨"MCP server URL must not point to a private or loopback address", rfl⟩, rfl⟩

theorem c4_witness :
    (∃ e, (mcpRequest (some { protocol := "http:", hostname := "127.0.0.1" })
        "http://127.0.0.1/x" (.ok "response")).1 = .error e) ∧
    (mcpRequest (some { protocol := "http:", hostname := "127.0.0.1" })
        "http://127.0.0.1/x" (.ok "response")).2 = [] :=
  c4_ssrf_guard (some { protocol := "http:", hostname := "127.0.0.1" })
    "http://127.0.0.1/x" (.ok "response")
    (Or.inr ⟨{ protocol := "http:", hostname := "127.0.0.1" }, rfl, Or.inr (by decide)⟩)

end NeoGPT.MCP

namespace NeoGPT.AI

/-- One tool-call fragment from a stream chunk delta (an entry of
choice.delta.tool_calls); a field missing from the delta is the empty
string, matching the conditional += accumulation of the source. -/
structure ToolCallFrag where
  index : Nat
  id : String
  name : String
  args : String
deriving DecidableEq, Repr

/-- choices[0] of one stream chunk; chunks without a choice are skipped by
the source loop and are not represented. -/
structure ChunkChoice where
  content : String
  toolCalls : List ToolCallFrag
  finishReason : Option String
deriving DecidableEq, Repr

/-- Outcome of one streaming request to the provider: the stream completes
after delivering the given chunks; or the request is aborted by the
cancellation signal (AbortError) after delivering them; or it fails with
another error after delivering them. -/
inductive RoundResult where
  | stream (chunks : List ChunkChoice)
  | abort (chunks : List ChunkChoice)
  | fail (chunks : List ChunkChoice) (message : String)
deriving DecidableEq, Repr

/-- An entry of toolCallsAcc: accumulated id, name and argument string. -/
structure ToolCallAcc where
  id : String
  name : String
  args : String
deriving DecidableEq, Repr

/-- A provider-format chat message as pushed onto msgsCopy. toolCalls
entries carry (id, name, argument string) of each reconstructed call. -/
structure ChatMsg where
  role : String
  content : Option String
  toolCalls : List (String × String × String)
  toolCallId : Option String
deriving DecidableEq, Repr

/-- Events delivered through the streamOpenAI callbacks; the toolCall event
carries the raw accumulated argument string whose JSON.parse result is what
the source hands to the executor (argument parsing is kept opaque). -/
inductive Event where
  | chunk (delta : String)
  | toolCall (name args : String)
  | toolResult (name result : String)
  | done (full : String)
  | error (message : String)
deriving DecidableEq, Repr

/-- toolCallsAcc update for one fragment: the source stores fragments in a
plain object keyed by the numeric index and later reads Object.values, which
enumerates integer-like keys in ascending order — modeled as an
index-sorted association list with in-place += on an existing entry. -/
def updateAcc : List (Nat × ToolCallAcc) → ToolCallFrag → List (Nat × ToolCallAcc)
  | [], tc => [(tc.index, { id := tc.id, name := tc.name, args := tc.args })]
  | (i, a) :: rest, tc =>
    if tc.index = i then
      (i, { id := a.id ++ tc.id, name := a.name ++ tc.name, args := a.args ++ tc.args }) :: rest
    else if tc.index < i then
      (tc.index, { id := tc.id, name := tc.name, args := tc.args }) :: (i, a) :: rest
    else (i, a) :: updateAcc rest tc

/-- Per-round accumulation state of the stream-consumption loop. -/
structure RoundState where
  chunkText : String
  fullResponse : String
  acc : List (Nat × ToolCallAcc)
  finishReason : Option String
  events : List Event
deriving Repr

/-- Processing of one chunk inside the for-await loop of streamOpenAI
(src/unnamed/part_001, lines 85-107): a non-empty text delta extends the
per-round and whole-response buffers and is emitted immediately; tool-call
fragments are folded into toolCallsAcc; a non-null finish_reason is
recorded. -/
def processChunk (st : RoundState) (c : ChunkChoice) : RoundState :=
  let st :=
    if c.content = "" then st
    else { st with chunkText := st.chunkText ++ c.content,
                   fullResponse := st.fullResponse ++ c.content,
                   events := st.events ++ [Event.chunk c.content] }
  let st := { st with acc := c.toolCalls.foldl updateAcc st.acc }
  match c.finishReason with
  | some f => { st with finishReason := some f }
  | none => st

/-- Consumption of one whole stream. -/
def processChunks (cs : List ChunkChoice) (st : RoundState) : RoundState :=
  cs.foldl processChunk st

/-- The last non-null finish_reason of a chunk list, from the given initial
value. -/
def chunksFinish (cs : List ChunkChoice) (init : Option String) : Option String :=
  cs.foldl (fun acc c => match c.finishReason with | some f => some f | none => acc) init

/-- A tool executor: name and parsed arguments to a result, or a thrown error. -/
def ToolExec : Type := String → String → Except String String

/-- Execution of one reconstructed tool call (src/unnamed/part_001, lines
127-147): the toolCall event is emitted, the executor runs with failures
caught and rendered as an error string, the toolResult event is emitted and
the tool turn is appended to msgsCopy. -/
def execOneTool (exec : ToolExec) (state : List ChatMsg × List Event) (tc : ToolCallAcc) :
    List ChatMsg × List Event :=
  let resultText :=
    match exec tc.name tc.args with
    | .ok s => s
    | .error m => "Error: " ++ m
  (state.1 ++ [{ role := "tool", content := some resultText, toolCalls := [],
                 toolCallId := some tc.id }],
   state.2 ++ [Event.toolCall tc.name tc.args, Event.toolResult tc.name resultText])

/-- The tool-execution block of one round (src/unnamed/part_001, lines
114-147): Object.values of toolCallsAcc (ascending index order), the
assistant turn carrying the accumulated text (or null) and the reconstructed
tool calls, then one executor run and tool turn per call. Returns the
extended message list and event list. -/
def assistantTurn (st : RoundState) : ChatMsg :=
  { role := "assistant",
    content := if st.chunkText = "" then none else some st.chunkText,
    toolCalls := (st.acc.map (fun p => p.2)).map (fun a => (a.id, a.name, a.args)),
    toolCallId := none }

def roundContinue (exec : ToolExec) (msgsCopy : List ChatMsg) (st : RoundState) :
    List ChatMsg × List Event :=
  let toolCallList := st.acc.map (fun p => p.2)
  toolCallList.foldl (execOneTool exec) (msgsCopy ++ [assistantTurn st], st.events)

/-- Result of the round loop. -/
structure LoopOut where
  events : List Event
  msgsCopy : List ChatMsg
  requests : Nat
  aborted : Bool
deriving Repr

/-- The bounded round loop of streamOpenAI (src/unnamed/part_001, lines
58-150): each iteration issues one streaming request (counted in requests),
consumes the stream, and either terminates with onDone/onError or appends
the assistant turn plus one tool turn per call and continues; the source's
for-loop bound of 10 is the initial fuel. An abort surfaces as AbortError
out of the stream and is routed by the catch to onDone with the text
accumulated so far; any other stream failure is routed to onError. After the
tenth round the loop falls through to onDone. -/
def streamLoop (behavior : Nat → RoundResult) (hasTools : Bool)
    (toolExecutor : Option ToolExec) : Nat → Nat → List ChatMsg → String → List Event →
    Nat → LoopOut
  | _, 0, msgsCopy, fullResponse, events, requests =>
    { events := events ++ [Event.done fullResponse], msgsCopy := msgsCopy,
      requests := requests, aborted := false }
  | round, fuel + 1, msgsCopy, fullResponse, events, requests =>
    match behavior round with
    | .abort cs =>
      let st := processChunks cs ⟨"", fullResponse, [], none, events⟩
      { events := st.events ++ [Event.done st.fullResponse], msgsCopy := msgsCopy,
        requests := requests + 1, aborted := true }
    | .fail cs m =>
      let st := processChunks cs ⟨"", fullResponse, [], none, events⟩
      { events := st.events ++ [Event.error m], msgsCopy := msgsCopy,
        requests := requests + 1, aborted := false }
    | .stream cs =>
      let st := processChunks cs ⟨"", fullResponse, [], none, events⟩
      match toolExecutor with
      | none =>
        { events := st.events ++ [Event.done st.fullResponse], msgsCopy := msgsCopy,
          requests := requests + 1, aborted := false }
      | some exec =>
        if (st.finishReason == some "tool_calls") && hasTools then
          let next := roundContinue exec msgsCopy st
          streamLoop behavior hasTools toolExecutor (round + 1) fuel next.1 st.fullResponse
            next.2 (requests + 1)
        else
          { events := st.events ++ [Event.done st.fullResponse], msgsCopy := msgsCopy,
            requests := requests + 1, aborted := false }

/-- Result of streamOpenAI: the emitted events, the caller's messages array
after the call, the internal msgsCopy and instrumentation. -/
structure StreamOut where
  events : List Event
  messages : List ChatMsg
  msgsCopy : List ChatMsg
  requests : Nat
  aborted : Bool
deriving Repr

/-- streamOpenAI (src/unnamed/part_001, lines 47-155) over a provider
behavior giving the outcome of each round's streaming request. hasTools is
tools && tools.length > 0; msgsCopy starts as the spread copy
[...messages], and no statement of the source ever assigns to or mutates
the caller's messages array, which is therefore returned unchanged. -/
def streamOpenAI (behavior : Nat → RoundResult) (tools : List String)
    (toolExecutor : Option ToolExec) (messages : List ChatMsg) : StreamOut :=
  let hasTools := !tools.isEmpty
  let msgsCopy := messages
  let out := streamLoop behavior hasTools toolExecutor 0 10 msgsCopy "" [] 0
  { events := out.events, messages := messages, msgsCopy := out.msgsCopy,
    requests := out.requests, aborted := out.aborted }

end NeoGPT.AI

namespace NeoGPT.ChatRoute

open NeoGPT.AI

/-- Server-sent events written by the chat route (the sse helper of
POST /api/ai/chat, src/unnamed/part_006). -/
inductive SSE where
  | convId (id : Nat)
  | delta (content : String)
  | toolCall (name args : String)
  | toolResult (name result : String)
  | done
  | errorMsg (message : String)
deriving DecidableEq, Repr

/-- State accumulated by the chat-route callbacks across adapter events. -/
structure ChatCbState where
  fullResponse : String
  sse : List SSE
  insertedMessages : List (String × String)
  ended : Bool
deriving DecidableEq, Repr

/-- The onChunk / onToolCall / onToolResult / onDone / onError callbacks of
POST /api/ai/chat (src/unnamed/part_006, lines 337-368) as a step over one
adapter event: onChunk extends the route's own fullResponse and relays a
delta event; tool events are relayed (the result truncated to 600); onDone
inserts the assistant row carrying the accumulated fullResponse, relays done
and ends the stream; onError relays the error and ends the stream without
inserting. -/
def chatCbStep (cb : ChatCbState) (e : Event) : ChatCbState :=
  match e with
  | .chunk d =>
    { cb with fullResponse := cb.fullResponse ++ d, sse := cb.sse ++ [SSE.delta d] }
  | .toolCall n a => { cb with sse := cb.sse ++ [SSE.toolCall n a] }
  | .toolResult n r => { cb with sse := cb.sse ++ [SSE.toolResult n (jsTake r 600)] }
  | .done _ =>
    { cb with insertedMessages := cb.insertedMessages ++ [("assistant", cb.fullResponse)],
              sse := cb.sse ++ [SSE.done], ended := true }
  | .error m => { cb with sse := cb.sse ++ [SSE.errorMsg m], ended := true }

/-- The route's callback state after an adapter run delivering the given
events in order. -/
def runChatCallbacks (events : List Event) : ChatCbState :=
  events.foldl chatCbStep { fullResponse := "", sse := [], insertedMessages := [], ended := false }

/-- Terminal adapter events: done and error. -/
def isTerminal : Event → Bool
  | .done _ => true
  | .error _ => true
  | _ => false

/-- Text-delta adapter events. -/
def isChunk : Event → Bool
  | .chunk _ => true
  | _ => false

/-- Error SSE events. -/
def isErrorSSE : SSE → Bool
  | .errorMsg _ => true
  | _ => false

/-- Concatenation of all text deltas of an event list. -/
def concatDeltas : List Event → String
  | [] => ""
  | Event.chunk d :: rest => d ++ concatDeltas rest
  | _ :: rest => concatDeltas rest

end NeoGPT.ChatRoute

namespace NeoGPT.ChatRoute

open NeoGPT.AI

theorem concatDeltas_append (a b : List Event) :
    concatDeltas (a ++ b) = concatDeltas a ++ concatDeltas b := by
  induction a with
  | nil => simp [concatDeltas, String.empty_append]
  | cons e rest ih =>
    cases e <;> simp [concatDeltas, ih, String.append_assoc]

theorem concatDeltas_no_chunk (l : List Event) (h : ∀ e ∈ l, isChunk e = false) :
    concatDeltas l = "" := by
  induction l with
  | nil => rfl
  | cons e rest ih =>
    have he := h e (by simp)
    have hrest := ih (fun x hx => h x (by simp [hx]))
    cases e <;> simp_all [concatDeltas, isChunk]

theorem isChunk_not_terminal (e : Event) (h : isChunk e = true) : isTerminal e = false := by
  cases e <;> simp_all [isChunk, isTerminal]

end NeoGPT.ChatRoute

namespace NeoGPT.AI

open NeoGPT.ChatRoute

theorem processChunk_spec (st : RoundState) (c : ChunkChoice) :
    ∃ add, (processChunk st c).events = st.events ++ add ∧
      (∀ e ∈ add, isChunk e = true) ∧
      (processChunk st c).fullResponse = st.fullResponse ++ concatDeltas add := by
  by_cases hc : c.content = ""
  · refine ⟨[], ?_, by simp, ?_⟩ <;>
      cases hcf : c.finishReason <;>
        simp [processChunk, hc, hcf, concatDeltas, String.append_empty]
  · refine ⟨[Event.chunk c.content], ?_, ?_, ?_⟩
    · cases hcf : c.finishReason <;> simp [processChunk, hc, hcf]
    · simp [isChunk]
    · cases hcf : c.finishReason <;>
        simp [processChunk, hc, hcf, concatDeltas, String.append_empty]

theorem processChunks_spec (cs : List ChunkChoice) :
    ∀ st : RoundState, ∃ add,
      (processChunks cs st).events = st.events ++ add ∧
      (∀ e ∈ add, isChunk e = true) ∧
      (processChunks cs st).fullResponse = st.fullResponse ++ concatDeltas add := by
  induction cs with
  | nil =>
    intro st
    exact ⟨[], by simp [processChunks], by simp,
      by simp [processChunks, concatDeltas, String.append_empty]⟩
  | cons c rest ih =>
    intro st
    have step : processChunks (c :: rest) st = processChunks rest (processChunk st c) := rfl
    obtain ⟨a1, he1, hc1, hf1⟩ := processChunk_spec st c
    obtain ⟨a2, he2, hc2, hf2⟩ := ih (processChunk st c)
    refine ⟨a1 ++ a2, ?_, ?_, ?_⟩
    · rw [step, he2, he1, List.append_assoc]
    · intro e he
      rcases List.mem_append.mp he with h | h
      · exact hc1 e h
      · exact hc2 e h
    · rw [step, hf2, hf1, concatDeltas_append, String.append_assoc]

theorem processChunk_finish (st : RoundState) (c : ChunkChoice) :
    (processChunk st c).finishReason =
      match c.finishReason with | some f => some f | none => st.finishReason := by
  by_cases hc : c.content = "" <;> cases hcf : c.finishReason <;>
    simp [processChunk, hc, hcf]

theorem processChunks_finish (cs : List ChunkChoice) :
    ∀ st : RoundState, (processChunks cs st).finishReason = chunksFinish cs st.finishReason := by
  induction cs with
  | nil => intro st; rfl
  | cons c rest ih =>
    intro st
    have step : processChunks (c :: rest) st = processChunks rest (processChunk st c) := rfl
    rw [step, ih (processChunk st c), processChunk_finish]
    rfl

theorem execFold_spec (exec : ToolExec) (l : List ToolCallAcc) :
    ∀ (ms : List ChatMsg) (evs : List Event),
      ∃ addm adde,
        (l.foldl (execOneTool exec) (ms, evs)).1 = ms ++ addm ∧
        (l.foldl (execOneTool exec) (ms, evs)).2 = evs ++ adde ∧
        (∀ e ∈ adde, isTerminal e = false ∧ isChunk e = false) := by
  induction l with
  | nil => intro ms evs; exact ⟨[], [], by simp, by simp, by simp⟩
  | cons tc rest ih =>
    intro ms evs
    have step : (tc :: rest).foldl (execOneTool exec) (ms, evs)
        = rest.foldl (execOneTool exec) (execOneTool exec (ms, evs) tc) := rfl
    obtain ⟨am, ae, h1, h2, h3⟩ := ih (execOneTool exec (ms, evs) tc).1
      (execOneTool exec (ms, evs) tc).2
    refine ⟨(execOneTool exec (ms, evs) tc).1.drop ms.length ++ am,
      (execOneTool exec (ms, evs) tc).2.drop evs.length ++ ae, ?_, ?_, ?_⟩
    · rw [step]
      rw [show rest.foldl (execOneTool exec) (execOneTool exec (ms, evs) tc)
          = rest.foldl (execOneTool exec)
            ((execOneTool exec (ms, evs) tc).1, (execOneTool exec (ms, evs) tc).2) from rfl] at h1 ⊢
      rw [h1]
      simp [execOneTool]
    · rw [step]
      rw [show rest.foldl (execOneTool exec) (execOneTool exec (ms, evs) tc)
          = rest.foldl (execOneTool exec)
            ((execOneTool exec (ms, evs) tc).1, (execOneTool exec (ms, evs) tc).2) from rfl] at h2 ⊢
      rw [h2]
      simp [execOneTool]
    · intro e he
      rcases List.mem_append.mp he with h | h
      · have : (execOneTool exec (ms, evs) tc).2.drop evs.length
            = [Event.toolCall tc.name tc.args,
               Event.toolResult tc.name (match exec tc.name tc.args with
                 | .ok s => s | .error m => "Error: " ++ m)] := by
          simp [execOneTool]
        rw [this] at h
        simp only [List.mem_cons, List.not_mem_nil, or_false] at h
        rcases h with h | h
        · subst h; exact ⟨rfl, rfl⟩
        · subst h; exact ⟨rfl, rfl⟩
      · exact h3 e h

theorem roundContinue_spec (exec : ToolExec) (msgsCopy : List ChatMsg) (st : RoundState) :
    ∃ addm adde,
      (roundContinue exec msgsCopy st).1 = msgsCopy ++ addm ∧
      (roundContinue exec msgsCopy st).2 = st.events ++ adde ∧
      (∀ e ∈ adde, isTerminal e = false ∧ isChunk e = false) := by
  unfold roundContinue
  obtain ⟨am, ae, h1, h2, h3⟩ := execFold_spec exec (st.acc.map (fun p => p.2))
    (msgsCopy ++ [assistantTurn st]) st.events
  refine ⟨[assistantTurn st] ++ am, ae, ?_, h2, h3⟩
  rw [h1, List.append_assoc]

end NeoGPT.AI

namespace NeoGPT.AI

open NeoGPT.ChatRoute

theorem streamLoop_spec (behavior : Nat → RoundResult) (hasTools : Bool)
    (exec : Option ToolExec) :
    ∀ (fuel round : Nat) (msgsCopy : List ChatMsg) (full : String) (events : List Event)
      (requests : Nat),
      (∀ e ∈ events, isTerminal e = false) → full = concatDeltas events →
      ∃ pre tailm,
        (∀ e ∈ pre, isTerminal e = false) ∧
        (streamLoop behavior hasTools exec round fuel msgsCopy full events requests).msgsCopy
          = msgsCopy ++ tailm ∧
        (streamLoop behavior hasTools exec round fuel msgsCopy full events requests).requests
          ≤ requests + fuel ∧
        ((streamLoop behavior hasTools exec round fuel msgsCopy full events requests).events
            = pre ++ [Event.done (concatDeltas pre)] ∨
          ∃ m, (streamLoop behavior hasTools exec round fuel msgsCopy full events requests).events
            = pre ++ [Event.error m]) ∧
        ((streamLoop behavior hasTools exec round fuel msgsCopy full events requests).aborted
            = true →
          (streamLoop behavior hasTools exec round fuel msgsCopy full events requests).events
            = pre ++ [Event.done (concatDeltas pre)]) := by
  intro fuel
  induction fuel with
  | zero =>
    intro round msgsCopy full events requests hnt hfull
    refine ⟨events, [], hnt, by simp [streamLoop], by simp [streamLoop], ?_, ?_⟩
    · left
      simp [streamLoop, hfull]
    · intro _
      simp [streamLoop, hfull]
  | succ fuel ih =>
    intro round msgsCopy full events requests hnt hfull
    have hfull2 : ∀ cs, (processChunks cs (⟨"", full, [], none, events⟩ : RoundState)).fullResponse
        = concatDeltas (processChunks cs (⟨"", full, [], none, events⟩ : RoundState)).events := by
      intro cs
      obtain ⟨add2, he2, hchunk2, hf2⟩ :=
        processChunks_spec cs (⟨"", full, [], none, events⟩ : RoundState)
      rw [hf2, he2, concatDeltas_append]
      dsimp only
      rw [hfull]
    cases hb : behavior round with
    | abort cs =>
      refine ⟨(processChunks cs (⟨"", full, [], none, events⟩ : RoundState)).events, [],
        ?_, ?_, ?_, ?_, ?_⟩
      · obtain ⟨add2, he2, hchunk2, _⟩ :=
          processChunks_spec cs (⟨"", full, [], none, events⟩ : RoundState)
        rw [he2]
        intro e hm
        rcases List.mem_append.mp hm with h | h
        · exact hnt e h
        · exact isChunk_not_terminal e (hchunk2 e h)
      · simp [streamLoop, hb]
      · simp [streamLoop, hb]
      · left
        simp only [streamLoop, hb]
        rw [hfull2 cs]
      · intro _
        simp only [streamLoop, hb]
        rw [hfull2 cs]
    | fail cs m =>
      refine ⟨(processChunks cs (⟨"", full, [], none, events⟩ : RoundState)).events, [],
        ?_, ?_, ?_, ?_, ?_⟩
      · obtain ⟨add2, he2, hchunk2, _⟩ :=
          processChunks_spec cs (⟨"", full, [], none, events⟩ : RoundState)
        rw [he2]
        intro e hm
        rcases List.mem_append.mp hm with h | h
        · exact hnt e h
        · exact isChunk_not_terminal e (hchunk2 e h)
      · simp [streamLoop, hb]
      · simp [streamLoop, hb]
      · right
        exact ⟨m, by simp [streamLoop, hb]⟩
      · intro habs
        simp [streamLoop, hb] at habs
    | stream cs =>
      cases hex : exec with
      | none =>
        refine ⟨(processChunks cs (⟨"", full, [], none, events⟩ : RoundState)).events, [],
          ?_, ?_, ?_, ?_, ?_⟩
        · obtain ⟨add2, he2, hchunk2, _⟩ :=
            processChunks_spec cs (⟨"", full, [], none, events⟩ : RoundState)
          rw [he2]
          intro e hm
          rcases List.mem_append.mp hm with h | h
          · exact hnt e h
          · exact isChunk_not_terminal e (hchunk2 e h)
        · simp [streamLoop, hb]
        · simp [streamLoop, hb]
        · left
          simp only [streamLoop, hb]
          rw [hfull2 cs]
        · intro habs
          simp [streamLoop, hb] at habs
      | some ex =>
        by_cases hcond :
            (((processChunks cs (⟨"", full, [], none, events⟩ : RoundState)).finishReason
              == some "tool_calls") && hasTools) = true
        · -- the loop recurses with the extended message list
          subst hex
          have hfcs := hfull2 cs
          obtain ⟨add2, he2, hchunk2, _⟩ :=
            processChunks_spec cs (⟨"", full, [], none, events⟩ : RoundState)
          obtain ⟨addm, adde, hm1, hm2, hm3⟩ := roundContinue_spec ex msgsCopy
            (processChunks cs (⟨"", full, [], none, events⟩ : RoundState))
          have hout : streamLoop behavior hasTools (some ex) round (fuel + 1) msgsCopy full
              events requests
              = streamLoop behavior hasTools (some ex) (round + 1) fuel
                  (roundContinue ex msgsCopy
                    (processChunks cs (⟨"", full, [], none, events⟩ : RoundState))).1
                  (processChunks cs (⟨"", full, [], none, events⟩ : RoundState)).fullResponse
                  (roundContinue ex msgsCopy
                    (processChunks cs (⟨"", full, [], none, events⟩ : RoundState))).2
                  (requests + 1) := by
            simp only [streamLoop, hb]
            rw [if_pos hcond]
          have hnt2 : ∀ e ∈ (roundContinue ex msgsCopy
              (processChunks cs (⟨"", full, [], none, events⟩ : RoundState))).2,
              isTerminal e = false := by
            rw [hm2]
            intro e hm
            rcases List.mem_append.mp hm with h | h
            · rw [he2] at h
              rcases List.mem_append.mp h with h | h
              · exact hnt e h
              · exact isChunk_not_terminal e (hchunk2 e h)
            · exact (hm3 e h).1
          have hfullnext : (processChunks cs
              (⟨"", full, [], none, events⟩ : RoundState)).fullResponse
              = concatDeltas (roundContinue ex msgsCopy
                  (processChunks cs (⟨"", full, [], none, events⟩ : RoundState))).2 := by
            rw [hm2, concatDeltas_append,
              concatDeltas_no_chunk adde (fun e h => (hm3 e h).2),
              String.append_empty]
            exact hfcs
          obtain ⟨pre, tailm, hp1, hp2, hp3, hp4, hp5⟩ :=
            ih (round + 1)
              (roundContinue ex msgsCopy
                (processChunks cs (⟨"", full, [], none, events⟩ : RoundState))).1
              (processChunks cs (⟨"", full, [], none, events⟩ : RoundState)).fullResponse
              (roundContinue ex msgsCopy
                (processChunks cs (⟨"", full, [], none, events⟩ : RoundState))).2
              (requests + 1) hnt2 hfullnext
          refine ⟨pre, addm ++ tailm, hp1, ?_, ?_, ?_, ?_⟩
          · rw [hout, hp2, hm1]
            simp [List.append_assoc]
          · rw [hout]
            omega
          · rw [hout]
            exact hp4
          · rw [hout]
            exact hp5
        · refine ⟨(processChunks cs (⟨"", full, [], none, events⟩ : RoundState)).events, [],
            ?_, ?_, ?_, ?_, ?_⟩
          · obtain ⟨add2, he2, hchunk2, _⟩ :=
              processChunks_spec cs (⟨"", full, [], none, events⟩ : RoundState)
            rw [he2]
            intro e hm
            rcases List.mem_append.mp hm with h | h
            · exact hnt e h
            · exact isChunk_not_terminal e (hchunk2 e h)
          · simp [streamLoop, hb, hex, hcond]
          · simp [streamLoop, hb, hex, hcond]
          · left
            simp only [streamLoop, hb, hex]
            rw [if_neg hcond]
            rw [hfull2 cs]
          · intro habs
            simp [streamLoop, hb, hex, hcond] at habs

end NeoGPT.AI

namespace NeoGPT.AI

open NeoGPT.ChatRoute

theorem streamLoop_alltc (behavior : Nat → RoundResult) (ex : ToolExec)
    (hb : ∀ r, ∃ cs, behavior r = .stream cs ∧ chunksFinish cs none = some "tool_calls") :
    ∀ (fuel round : Nat) (msgsCopy : List ChatMsg) (full : String) (events : List Event)
      (requests : Nat),
      (streamLoop behavior true (some ex) round fuel msgsCopy full events requests).requests
        = requests + fuel ∧
      ∃ pre f, (streamLoop behavior true (some ex) round fuel msgsCopy full events
        requests).events = pre ++ [Event.done f] := by
  intro fuel
  induction fuel with
  | zero =>
    intro round msgsCopy full events requests
    exact ⟨by simp [streamLoop], ⟨events, full, by simp [streamLoop]⟩⟩
  | succ fuel ih =>
    intro round msgsCopy full events requests
    obtain ⟨cs, hbr, hfin⟩ := hb round
    have hfin2 : (processChunks cs (⟨"", full, [], none, events⟩ : RoundState)).finishReason
        = some "tool_calls" := by
      rw [processChunks_finish]
      exact hfin
    have hcond : (((processChunks cs (⟨"", full, [], none, events⟩ : RoundState)).finishReason
        == some "tool_calls") && true) = true := by
      rw [hfin2]
      rfl
    have hout : streamLoop behavior true (some ex) round (fuel + 1) msgsCopy full events requests
        = streamLoop behavior true (some ex) (round + 1) fuel
            (roundContinue ex msgsCopy
              (processChunks cs (⟨"", full, [], none, events⟩ : RoundState))).1
            (processChunks cs (⟨"", full, [], none, events⟩ : RoundState)).fullResponse
            (roundContinue ex msgsCopy
              (processChunks cs (⟨"", full, [], none, events⟩ : RoundState))).2
            (requests + 1) := by
      simp only [streamLoop, hbr]
      rw [if_pos hcond]
    rw [hout]
    obtain ⟨hreq, pre, f, hev⟩ := ih (round + 1)
      (roundContinue ex msgsCopy
        (processChunks cs (⟨"", full, [], none, events⟩ : RoundState))).1
      (processChunks cs (⟨"", full, [], none, events⟩ : RoundState)).fullResponse
      (roundContinue ex msgsCopy
        (processChunks cs (⟨"", full, [], none, events⟩ : RoundState))).2
      (requests + 1)
    refine ⟨by omega, ⟨pre, f, hev⟩⟩

/-- Claim C3: for every provider behavior the adapter issues at most 10
streaming requests before returning; and for a behavior that answers every
round with a tool_calls finish reason (with a non-empty tool catalog and an
executor supplied) it performs exactly the maximum of 10 rounds and then
emits the completion event instead of looping forever. -/
theorem c3_bounded_rounds (behavior : Nat → RoundResult) (tools : List String)
    (exec : ToolExec) (messages : List ChatMsg)
    (ht : tools ≠ []) :
    (streamOpenAI behavior tools (some exec) messages).requests ≤ 10 ∧
    ((∀ r, ∃ cs, behavior r = .stream cs ∧ chunksFinish cs none = some "tool_calls") →
      (streamOpenAI behavior tools (some exec) messages).requests = 10 ∧
      ∃ pre f, (streamOpenAI behavior tools (some exec) messages).events
        = pre ++ [Event.done f]) := by
  constructor
  · obtain ⟨pre, tailm, h1, h2, h3, h4, h5⟩ :=
      streamLoop_spec behavior (!tools.isEmpty) (some exec) 10 0 messages "" [] 0
        (by simp) rfl
    simpa using h3
  · intro hb
    have htools : (!tools.isEmpty) = true := by
      simp [ht]
    have h := streamLoop_alltc behavior exec hb 10 0 messages "" [] 0
    constructor
    · have := h.1
      simpa [streamOpenAI, htools] using this
    · obtain ⟨pre, f, hev⟩ := h.2
      refine ⟨pre, f, ?_⟩
      simpa [streamOpenAI, htools] using hev

theorem c3_witness :
    ((streamOpenAI
        (fun _ => RoundResult.stream [⟨"", [⟨0, "call1", "memory_save", ""⟩], some "tool_calls"⟩])
        ["memory_save"] (some (fun _ _ => Except.ok "ok")) []).requests ≤ 10) ∧
    ((streamOpenAI
        (fun _ => RoundResult.stream [⟨"", [⟨0, "call1", "memory_save", ""⟩], some "tool_calls"⟩])
        ["memory_save"] (some (fun _ _ => Except.ok "ok")) []).requests = 10 ∧
      ∃ pre f, (streamOpenAI
        (fun _ => RoundResult.stream [⟨"", [⟨0, "call1", "memory_save", ""⟩], some "tool_calls"⟩])
        ["memory_save"] (some (fun _ _ => Except.ok "ok")) []).events
          = pre ++ [Event.done f]) := by
  have h := c3_bounded_rounds
    (fun _ => RoundResult.stream [⟨"", [⟨0, "call1", "memory_save", ""⟩], some "tool_calls"⟩])
    ["memory_save"] (fun _ _ => Except.ok "ok") [] (by decide)
  exact ⟨h.1, h.2 (fun r => ⟨[⟨"", [⟨0, "call1", "memory_save", ""⟩], some "tool_calls"⟩],
    rfl, rfl⟩)⟩

/-- Claim C10: streamOpenAI never mutates the caller's message list — the
messages array is returned exactly as passed (the source never assigns to
it), and every assistant and tool turn accumulated across the rounds is
appended only to the internal copy, which extends the original list. -/
theorem c10_messages_not_mutated (behavior : Nat → RoundResult) (tools : List String)
    (exec : Option ToolExec) (messages : List ChatMsg) :
    (streamOpenAI behavior tools exec messages).messages = messages ∧
    ∃ tail, (streamOpenAI behavior tools exec messages).msgsCopy = messages ++ tail := by
  refine ⟨rfl, ?_⟩
  obtain ⟨pre, tailm, h1, h2, h3, h4, h5⟩ :=
    streamLoop_spec behavior (!tools.isEmpty) exec 10 0 messages "" [] 0 (by simp) rfl
  exact ⟨tailm, h2⟩

end NeoGPT.AI

namespace NeoGPT.ChatRoute

open NeoGPT.AI

theorem chatCb_fold_safe (pre : List Event) :
    ∀ cb : ChatCbState, (∀ e ∈ pre, isTerminal e = false) →
      (pre.foldl chatCbStep cb).fullResponse = cb.fullResponse ++ concatDeltas pre ∧
      (pre.foldl chatCbStep cb).insertedMessages = cb.insertedMessages ∧
      ∃ adds, (pre.foldl chatCbStep cb).sse = cb.sse ++ adds ∧
        (∀ s ∈ adds, isErrorSSE s = false) := by
  induction pre with
  | nil =>
    intro cb _
    exact ⟨(String.append_empty _).symm, rfl, ⟨[], by simp, by simp⟩⟩
  | cons e rest ih =>
    intro cb h
    have he := h e (by simp)
    have hrest : ∀ x ∈ rest, isTerminal x = false := fun x hx => h x (by simp [hx])
    have step : (e :: rest).foldl chatCbStep cb = rest.foldl chatCbStep (chatCbStep cb e) := rfl
    cases e with
    | chunk d =>
      obtain ⟨h1, h2, adds, h3, h4⟩ := ih (chatCbStep cb (Event.chunk d)) hrest
      refine ⟨?_, ?_, ⟨SSE.delta d :: adds, ?_, ?_⟩⟩
      · rw [step, h1]
        simp [chatCbStep, concatDeltas, String.append_assoc]
      · rw [step, h2]
        simp [chatCbStep]
      · rw [step, h3]
        simp [chatCbStep]
      · intro s hs
        rcases List.mem_cons.mp hs with hs | hs
        · subst hs; rfl
        · exact h4 s hs
    | toolCall n a =>
      obtain ⟨h1, h2, adds, h3, h4⟩ := ih (chatCbStep cb (Event.toolCall n a)) hrest
      refine ⟨?_, ?_, ⟨SSE.toolCall n a :: adds, ?_, ?_⟩⟩
      · rw [step, h1]
        simp [chatCbStep, concatDeltas]
      · rw [step, h2]
        simp [chatCbStep]
      · rw [step, h3]
        simp [chatCbStep]
      · intro s hs
        rcases List.mem_cons.mp hs with hs | hs
        · subst hs; rfl
        · exact h4 s hs
    | toolResult n r =>
      obtain ⟨h1, h2, adds, h3, h4⟩ := ih (chatCbStep cb (Event.toolResult n r)) hrest
      refine ⟨?_, ?_, ⟨SSE.toolResult n (jsTake r 600) :: adds, ?_, ?_⟩⟩
      · rw [step, h1]
        simp [chatCbStep, concatDeltas]
      · rw [step, h2]
        simp [chatCbStep]
      · rw [step, h3]
        simp [chatCbStep]
      · intro s hs
        rcases List.mem_cons.mp hs with hs | hs
        · subst hs; rfl
        · exact h4 s hs
    | done x => simp [isTerminal] at he
    | error m => simp [isTerminal] at he

theorem runChatCallbacks_done (pre : List Event) (h : ∀ e ∈ pre, isTerminal e = false)
    (x : String) :
    (runChatCallbacks (pre ++ [Event.done x])).insertedMessages
      = [("assistant", concatDeltas pre)] ∧
    ∀ s ∈ (runChatCallbacks (pre ++ [Event.done x])).sse, isErrorSSE s = false := by
  unfold runChatCallbacks
  rw [List.foldl_append]
  obtain ⟨h1, h2, adds, h3, h4⟩ := chatCb_fold_safe pre
    { fullResponse := "", sse := [], insertedMessages := [], ended := false } h
  constructor
  · show (chatCbStep _ (Event.done x)).insertedMessages = _
    simp only [chatCbStep, h2, h1]
    rw [String.empty_append]
    rfl
  · intro s hs
    have hsse : (chatCbStep (pre.foldl chatCbStep
        { fullResponse := "", sse := [], insertedMessages := [], ended := false })
        (Event.done x)).sse
        = (pre.foldl chatCbStep
            { fullResponse := "", sse := [], insertedMessages := [], ended := false }).sse
          ++ [SSE.done] := rfl
    rw [show ([Event.done x].foldl chatCbStep (pre.foldl chatCbStep
        { fullResponse := "", sse := [], insertedMessages := [], ended := false }))
        = chatCbStep (pre.foldl chatCbStep
            { fullResponse := "", sse := [], insertedMessages := [], ended := false })
          (Event.done x) from rfl, hsse, h3] at hs
    rcases List.mem_append.mp hs with hsm | hsm
    · rcases List.mem_append.mp hsm with hsm | hsm
      · simp at hsm
      · exact h4 s hsm
    · rcases List.mem_cons.mp hsm with hsm | hsm
      · subst hsm; rfl
      · cases hsm

/-- Claim C1 counterexample: for a provider stream aborted mid-round after
the partial text "Hel", the adapter treats the abort as graceful completion
and the chat route's completion callback inserts the assistant row carrying
the partial text — so an assistant message IS persisted for the cancelled
request (while, as the claim also says, no error event reaches the client). -/
theorem c1_counterexample :
    (streamOpenAI (fun _ => RoundResult.abort [⟨"Hel", [], none⟩]) [] none []).aborted = true ∧
    (runChatCallbacks
        (streamOpenAI (fun _ => RoundResult.abort [⟨"Hel", [], none⟩]) [] none []).events).insertedMessages
      = [("assistant", "Hel")] ∧
    ((runChatCallbacks
        (streamOpenAI (fun _ => RoundResult.abort [⟨"Hel", [], none⟩]) [] none []).events).sse.all
      (fun s => !isErrorSSE s)) = true := by
  refine ⟨rfl, by decide, by decide⟩

/-- Claim C1 (amended): a cancellation triggered mid-stream is treated as
graceful completion — the adapter emits no error event and ends its event
stream with the completion event carrying the text accumulated so far — but
the chat route's completion callback then persists that partial text as an
assistant message row, so exactly one assistant row IS persisted for the
aborted request. -/
theorem c1_abort_graceful_but_persists (behavior : Nat → RoundResult) (tools : List String)
    (exec : Option ToolExec) (messages : List ChatMsg)
    (h : (streamOpenAI behavior tools exec messages).aborted = true) :
    ∃ pre, (∀ e ∈ pre, isTerminal e = false) ∧
      (streamOpenAI behavior tools exec messages).events
        = pre ++ [Event.done (concatDeltas pre)] ∧
      (runChatCallbacks (streamOpenAI behavior tools exec messages).events).insertedMessages
        = [("assistant", concatDeltas pre)] ∧
      ∀ s ∈ (runChatCallbacks (streamOpenAI behavior tools exec messages).events).sse,
        isErrorSSE s = false := by
  obtain ⟨pre, tailm, h1, h2, h3, h4, h5⟩ :=
    streamLoop_spec behavior (!tools.isEmpty) exec 10 0 messages "" [] 0 (by simp) rfl
  have hev : (streamOpenAI behavior tools exec messages).events
      = pre ++ [Event.done (concatDeltas pre)] := h5 h
  obtain ⟨hi, hs⟩ := runChatCallbacks_done pre h1 (concatDeltas pre)
  refine ⟨pre, h1, hev, ?_, ?_⟩
  · rw [hev]
    exact hi
  · rw [hev]
    exact hs

theorem c1_witness :
    ∃ pre, (∀ e ∈ pre, isTerminal e = false) ∧
      (streamOpenAI (fun _ => RoundResult.abort [⟨"Hel", [], none⟩]) [] none []).events
        = pre ++ [Event.done (concatDeltas pre)] ∧
      (runChatCallbacks
          (streamOpenAI (fun _ => RoundResult.abort [⟨"Hel", [], none⟩]) [] none []).events).insertedMessages
        = [("assistant", concatDeltas pre)] ∧
      ∀ s ∈ (runChatCallbacks
          (streamOpenAI (fun _ => RoundResult.abort [⟨"Hel", [], none⟩]) [] none []).events).sse,
        isErrorSSE s = false :=
  c1_abort_graceful_but_persists (fun _ => RoundResult.abort [⟨"Hel", [], none⟩]) [] none []
    (by decide)

end NeoGPT.ChatRoute
